import Mathlib

/-!
# Verification of the statistikkportalen selection / cardinality / cube-addressing core

This file gives a shallow embedding, in Lean 4, of the combinatorial core of the
statistikkportalen repository: the flat cube addressing of
src/js/variable-select-state.js (calculateFlatIndex, getDataValue), the query
builder, validator and cardinality estimator of src/js/variable-select-status.js
(getVariableSelection, validateSelection, getTrueDimensionValueCount,
updateSelectionCellCount), the codelist resolution of the codelist-support module
(extractCodelistCodes and the dropdown change handler of setupCodelistDropdowns),
and the layout validation of src/js/table-rotation.js (applyRotation).

JavaScript numbers are modelled as Nat (all quantities involved are non-negative
counts and indices), JS arrays as List, JS objects used as dictionaries as
association lists (List (String × _), looked up with List.lookup, overwritten with
assocSet, deleted with assocRemove), and JS Set (insertion ordered, deduplicating)
as a List built with insertSet (append-if-absent).  Fallible lookups return
Option.  DOM state that the functions read (card dataset attributes, selected
value items) is modelled by explicit structures (Card, ValueItem).
-/

namespace Statistikkportalen

/-- Model of a JavaScript Set of strings restricted to the operations the source
uses: Set.add keeps insertion order and ignores duplicates, Array.from returns the
insertion order.  insertSet appends x unless it is already present. -/
def insertSet (l : List String) (x : String) : List String :=
  if x ∈ l then l else l ++ [x]

/-!
## Cube addressing (src/js/variable-select-state.js)
-/

/-- The loop body of calculateFlatIndex: walking the (index, size) pairs from the
last dimension to the first, it returns the pair (flatIndex, multiplier) exactly as
the JS loop maintains them (multiplier starts at 1 and is multiplied by each size,
flatIndex accumulates index * multiplier). -/
def flatIndexAux : List (Nat × Nat) → Nat × Nat
  | [] => (0, 1)
  | (idx, sz) :: rest =>
    let fm := flatIndexAux rest
    (fm.1 + idx * fm.2, fm.2 * sz)

/-- calculateFlatIndex(indices, sizes) of src/js/variable-select-state.js: the
row-major flat offset, processing dimensions in reverse order (last dimension
changes fastest). -/
def calculateFlatIndex (indices sizes : List Nat) : Nat :=
  (flatIndexAux (indices.zip sizes)).1

/-- The stride of dimension i as the spec describes it: the product of the sizes
of all later dimensions (stride of the last dimension is 1). -/
def stride (sizes : List Nat) (i : Nat) : Nat :=
  (sizes.drop (i + 1)).prod

/-- A row- or column-header combination as built by buildDimensionCombinations:
parallel lists of category codes and category indices, one per dimension of the
corresponding layout list. -/
structure Combo where
  codes : List String
  indices : List Nat
deriving DecidableEq

/-- The layout: the ordered partition of dimension codes into rows and columns
(AppState.tableLayout). -/
structure Layout where
  rows : List String
  columns : List String
deriving DecidableEq

/-- The fetched data cube (JSON-Stat-like): dimension order id, per-dimension
sizes, and the flat value array. -/
structure DataCube where
  id : List String
  size : List Nat
  value : List Int
deriving DecidableEq

/-- The per-dimension body of the data.id.forEach loop in getDataValue: take the
dimension's index from the row combo if the dimension is in layout.rows, else
from the column combo if it is in layout.columns, else push 0. -/
def resolveDimIndex (layout : Layout) (rowHeader colHeader : Combo) (dimCode : String) : Nat :=
  match layout.rows.findIdx? (· == dimCode) with
  | some rowIndex => rowHeader.indices.getD rowIndex 0
  | none =>
    match layout.columns.findIdx? (· == dimCode) with
    | some colIndex => colHeader.indices.getD colIndex 0
    | none => 0

/-- getDataValue(rowHeader, colHeader) of src/js/variable-select-state.js, with
the module-level currentData and AppState.tableLayout passed explicitly: build
the full index vector in the cube's dimension order, compute the flat offset, and
read the value array (an out-of-range read yields none, modelling the undefined
JS array read). -/
def getDataValue (data : DataCube) (layout : Layout) (rowHeader colHeader : Combo) :
    Option Int :=
  data.value.get?
    (calculateFlatIndex (data.id.map (resolveDimIndex layout rowHeader colHeader)) data.size)

/-- The concrete 2×2 cube of the spec's scenario: D=[Sex,Year], sizes [2,2],
values [10,20,30,40] with Year fastest-changing. -/
def sexYearCube : DataCube :=
  { id := ["Sex", "Year"], size := [2, 2], value := [10, 20, 30, 40] }

/-- The concrete layout of the spec's scenario: rows=[Sex], columns=[Year]. -/
def sexYearLayout : Layout :=
  { rows := ["Sex"], columns := ["Year"] }

/-!
## Selection model and query builder (src/js/variable-select-status.js)
-/

/-- Decidable substring test on char lists (models JS String.includes). -/
def charListIsInfix (needle : List Char) : List Char → Bool
  | [] => needle.isEmpty
  | c :: rest => needle.isPrefixOf (c :: rest) || charListIsInfix needle rest

/-- The time-dimension heuristic of getVariableSelection:
dimCode === 'Tid' || dimCode.toLowerCase().includes('tid').  Lower-casing is
applied per character (dimension codes are ASCII). -/
def isTimeDim (dimCode : String) : Bool :=
  dimCode == "Tid" || charListIsInfix "tid".toList (dimCode.toList.map Char.toLower)

/-- The selection mode stored in the card's value-list container dataset:
'star' (all), 'top' (last N, with the parsed content of the top-n input), or
'specific' (explicit selection of individual items). -/
inductive Mode
  | star
  | top (n : Nat)
  | specific
deriving DecidableEq

/-- A value of the query object built by getVariableSelection: an explicit code
array, the wildcard "*", or the string "top(n)" (carrying the number n). -/
inductive QueryValue
  | codes (cs : List String)
  | star
  | top (n : Nat)
deriving DecidableEq

/-- A value-list item of a variable card, as the query builder reads it from the
DOM: its data-code and, when a codelist rendered the list, its parsed
data-valuemap (none models an absent or unparsable valueMap attribute). -/
structure ValueItem where
  code : String
  valueMap : Option (List String)
deriving DecidableEq

/-- A variable card as the selection/status functions read it from the DOM:
dimension code, the effective elimination flag of the card's dataset (kept
current by updateEliminationBadge), the current mode, and the currently selected
value-list items in display order. -/
structure Card where
  dimCode : String
  elimination : Bool
  mode : Mode
  selectedItems : List ValueItem
deriving DecidableEq

/-- The slice of a dimension's table metadata that the modelled functions read:
the keys of category.label, the category.index map (code to canonical 0-based
position), and extension.elimination. -/
structure DimensionMeta where
  categoryLabelKeys : List String
  categoryIndex : List (String × Nat)
  elimination : Bool
deriving DecidableEq

/-- The slice of tableMetadata that the modelled functions read: the dimension
order id and the per-dimension metadata map. -/
structure TableMetadata where
  id : List String
  dimension : List (String × DimensionMeta)
deriving DecidableEq

/-- One entry of a resolved codelist: code, label, and the base category codes it
represents (valueMap). -/
structure CodelistEntry where
  code : String
  label : String
  valueMap : List String
deriving DecidableEq

/-- An entry of the activeCodelists module map, as stored by the codelist
dropdown handler: id, effective elimination flag, aggregation flag, the codelist
entries, and the set of covered base category codes (a JS Set, modelled as its
insertion-ordered duplicate-free element list). -/
structure CodelistInfo where
  codelistId : String
  elimination : Bool
  isAggregated : Bool
  values : List CodelistEntry
  originalCodes : List String
deriving DecidableEq

/-- The comparison used to re-sort a time dimension's codes:
(indexMap[a] ?? 0) - (indexMap[b] ?? 0) as a non-strict order on the canonical
category indices. -/
def timeLe (d : DimensionMeta) (a b : String) : Prop :=
  (d.categoryIndex.lookup a).getD 0 ≤ (d.categoryIndex.lookup b).getD 0

instance timeLeDecidable (d : DimensionMeta) : DecidableRel (timeLe d) :=
  fun _ _ => Nat.decLe _ _

instance timeLeTotal (d : DimensionMeta) : IsTotal String (timeLe d) :=
  ⟨fun _ _ => Nat.le_total _ _⟩

instance timeLeTrans (d : DimensionMeta) : IsTrans String (timeLe d) :=
  ⟨fun _ _ _ => Nat.le_trans⟩

/-- values.sort((a, b) => (indexMap[a] ?? 0) - (indexMap[b] ?? 0)) — a stable
sort by canonical category index (JS Array.prototype.sort is stable). -/
def sortValuesByIndex (d : DimensionMeta) (values : List String) : List String :=
  List.insertionSort (timeLe d) values

/-- The body of the valueMap-expansion loop of getVariableSelection: each
selected item's parsed valueMap is added to the expandedCodes Set; an item
without a parsable valueMap contributes nothing. -/
def expandStep (acc : List String) (item : ValueItem) : List String :=
  match item.valueMap with
  | some vm => vm.foldl insertSet acc
  | none => acc

/-- The expansion of the selected items of a codelist-governed dimension to base
category codes: the union of the selected entries' valueMaps, de-duplicated in
first-insertion order (Array.from of the expandedCodes Set). -/
def expandViaValueMaps (items : List ValueItem) : List String :=
  items.foldl expandStep []

/-- The explicit code array the specific-mode branch of getVariableSelection
builds for a card: the selected items' codes, replaced by the valueMap expansion
when a codelist is active for the dimension, then re-sorted chronologically when
the dimension is time-like and its category.index map is available. -/
def resolvedValues (meta : TableMetadata) (codelists : List (String × CodelistInfo))
    (card : Card) : List String :=
  let values :=
    match codelists.lookup card.dimCode with
    | some _ => expandViaValueMaps card.selectedItems
    | none => card.selectedItems.map ValueItem.code
  if isTimeDim card.dimCode then
    match meta.dimension.lookup card.dimCode with
    | some d => sortValuesByIndex d values
    | none => values
  else values

/-- The per-card body of getVariableSelection: none means the card contributes no
key to the query object (an elimination dimension with an empty explicit
selection), otherwise the value stored under the card's dimension code. -/
def resolveCardSelection (meta : TableMetadata) (codelists : List (String × CodelistInfo))
    (card : Card) : Option QueryValue :=
  match card.mode with
  | Mode.star =>
    match codelists.lookup card.dimCode with
    | some info => some (QueryValue.codes info.originalCodes)
    | none => some QueryValue.star
  | Mode.top n => some (QueryValue.top n)
  | Mode.specific =>
    let values := resolvedValues meta codelists card
    if card.elimination = true ∧ values = [] then none
    else some (QueryValue.codes values)

/-- One iteration of the card loop of getVariableSelection: store the card's
resolved value under its dimension code, or leave the query object unchanged
when the card contributes nothing. -/
def selectionStep (meta : TableMetadata) (codelists : List (String × CodelistInfo))
    (acc : List (String × QueryValue)) (card : Card) : List (String × QueryValue) :=
  match resolveCardSelection meta codelists card with
  | some v => acc ++ [(card.dimCode, v)]
  | none => acc

/-- getVariableSelection of src/js/variable-select-status.js: the query object,
built by visiting every variable card in document order and storing each card's
resolved value under its dimension code (cards are one per dimension, so the
association list has one entry per contributing dimension). -/
def getVariableSelection (meta : TableMetadata) (codelists : List (String × CodelistInfo))
    (cards : List Card) : List (String × QueryValue) :=
  cards.foldl (selectionStep meta codelists) []

/-- The effective elimination flag validateSelection reads for a dimension: the
dataset.elimination of the dimension's card, false when there is no card. -/
def cardElimination (cards : List Card) (dimCode : String) : Bool :=
  match cards.find? (fun c => c.dimCode == dimCode) with
  | some c => c.elimination
  | none => false

/-- validateSelection of src/js/variable-select-status.js: every dimension of
tableMetadata.id whose effective elimination flag is false must have a value in
the selection object, and an array value must be non-empty. -/
def validateSelection (meta : TableMetadata) (cards : List Card)
    (selection : List (String × QueryValue)) : Bool :=
  meta.id.all fun dimCode =>
    if cardElimination cards dimCode then true
    else
      match selection.lookup dimCode with
      | none => false
      | some (QueryValue.codes cs) => !cs.isEmpty
      | some _ => true

/-- Modelled from the spec: the spec's notion of a non-empty resolved value — the
wildcard, a top(n) with n at least 1, or a non-empty code array. -/
def specNonEmptyValue : QueryValue → Bool
  | QueryValue.star => true
  | QueryValue.top n => decide (1 ≤ n)
  | QueryValue.codes cs => !cs.isEmpty

/-- Modelled from the spec: a query is valid iff every dimension whose effective
eliminable flag is false has a non-empty resolved value.  Stated for comparison
with the source's validateSelection. -/
def specValidSelection (meta : TableMetadata) (cards : List Card)
    (selection : List (String × QueryValue)) : Bool :=
  meta.id.all fun dimCode =>
    if cardElimination cards dimCode then true
    else
      match selection.lookup dimCode with
      | none => false
      | some v => specNonEmptyValue v

/-!
## Cardinality estimator (src/js/variable-select-status.js)
-/

/-- getTrueDimensionValueCount of src/js/variable-select-status.js: the size of
the active codelist's originalCodes Set when a codelist is active, otherwise the
number of keys of the dimension's category.label map, otherwise 0. -/
def getTrueDimensionValueCount (meta : TableMetadata)
    (codelists : List (String × CodelistInfo)) (dimCode : String) : Nat :=
  match codelists.lookup dimCode with
  | some info => info.originalCodes.length
  | none =>
    match meta.dimension.lookup dimCode with
    | some d => d.categoryLabelKeys.length
    | none => 0

/-- The expanded-code count of the specific-mode codelist branch of
updateSelectionCellCount: each selected item contributes its parsed valueMap's
length, or 1 when the valueMap attribute is absent or unparsable. -/
def expandedCount (items : List ValueItem) : Nat :=
  items.foldl
    (fun acc item =>
      match item.valueMap with
      | some vm => acc + vm.length
      | none => acc + 1)
    0

/-- The per-dimension selected count of updateSelectionCellCount: the true count
in star mode, min(topN, true count) in top mode, and in specific mode the
expanded count (codelist active) or the number of selected items. -/
def dimSelectedCount (meta : TableMetadata) (codelists : List (String × CodelistInfo))
    (card : Card) : Nat :=
  let trueCount := getTrueDimensionValueCount meta codelists card.dimCode
  match card.mode with
  | Mode.star => trueCount
  | Mode.top n => min n trueCount
  | Mode.specific =>
    match codelists.lookup card.dimCode with
    | some _ => expandedCount card.selectedItems
    | none => card.selectedItems.length

/-- The accumulator of the card loop in updateSelectionCellCount. -/
structure CellCountAcc where
  selectedCells : Nat
  maxCells : Nat
  hasIncludedDimension : Bool
  hasMissingMandatory : Bool
deriving DecidableEq

/-- The per-card body of the loop in updateSelectionCellCount: an optional
dimension in specific mode with nothing selected is skipped (it will be
eliminated); otherwise the dimension is included, its selected count multiplies
selectedCells when positive, its true count multiplies maxCells, and a mandatory
dimension with selected count 0 flags the estimate invalid. -/
def cellCountStep (meta : TableMetadata) (codelists : List (String × CodelistInfo))
    (acc : CellCountAcc) (card : Card) : CellCountAcc :=
  if card.selectedItems = [] ∧ card.mode = Mode.specific ∧ card.elimination = true then acc
  else
    let trueCount := getTrueDimensionValueCount meta codelists card.dimCode
    let cnt := dimSelectedCount meta codelists card
    { selectedCells := if cnt > 0 then acc.selectedCells * cnt else acc.selectedCells
      maxCells := acc.maxCells * trueCount
      hasIncludedDimension := true
      hasMissingMandatory := acc.hasMissingMandatory || (decide (cnt = 0) && !card.elimination) }

/-- updateSelectionCellCount of src/js/variable-select-status.js, restricted to
the number it returns: the product of the selected counts over the included
dimensions, forced to 0 when some mandatory dimension has an empty selection or
no dimension is included at all. -/
def updateSelectionCellCount (meta : TableMetadata)
    (codelists : List (String × CodelistInfo)) (cards : List Card) : Nat :=
  let acc := cards.foldl (cellCountStep meta codelists) ⟨1, 1, false, false⟩
  if acc.hasMissingMandatory then 0
  else if !acc.hasIncludedDimension then 0
  else acc.selectedCells

/-!
## Codelist resolution (codelist-support module: extractCodelistCodes and the
dropdown change handler installed by setupCodelistDropdowns)
-/

/-- A raw entry of a fetched codelist resource, as extractCodelistCodes reads it:
a code (the empty string models a missing code, which JS treats as falsy), an
optional label, and an optional valueMap (none models an absent or non-array
valueMap). -/
structure RawCodelistValue where
  code : String
  label : Option String
  valueMap : Option (List String)
deriving DecidableEq

/-- A fetched codelist resource: id, elimination flag, and the values array
(none models a response without a values array). -/
structure CodelistData where
  id : String
  elimination : Bool
  values : Option (List RawCodelistValue)
deriving DecidableEq

/-- The result record of extractCodelistCodes. -/
structure ExtractedCodelist where
  isAggregated : Bool
  values : List CodelistEntry
  originalCodes : List String
deriving DecidableEq

/-- The per-item body of extractCodelistCodes: an item without a code is
skipped; a missing or empty valueMap is replaced by the self-mapped singleton
[code]; the item is appended to values, its valueMap codes (skipping empty ones)
are added to the originalCodes Set, and the codelist is flagged aggregated when
some valueMap differs from [code]. -/
def extractStep (acc : ExtractedCodelist) (item : RawCodelistValue) : ExtractedCodelist :=
  if item.code = "" then acc
  else
    let vm :=
      match item.valueMap with
      | some l => if l = [] then [item.code] else l
      | none => [item.code]
    { isAggregated := acc.isAggregated || decide (vm.length ≠ 1 ∨ vm.headD "" ≠ item.code)
      values := acc.values ++ [⟨item.code, item.label.getD item.code, vm⟩]
      originalCodes := vm.foldl (fun oc c => if c = "" then oc else insertSet oc c) acc.originalCodes }

/-- extractCodelistCodes of the codelist-support module: fold the raw values
(an absent values array yields the empty extraction). -/
def extractCodelistCodes (cd : CodelistData) : ExtractedCodelist :=
  match cd.values with
  | none => ⟨false, [], []⟩
  | some vals => vals.foldl extractStep ⟨false, [], []⟩

/-- Overwrite the value stored under a key of a JS-object-as-dictionary. -/
def assocSet {β : Type} : List (String × β) → String → β → List (String × β)
  | [], k, v => [(k, v)]
  | (k0, v0) :: rest, k, v =>
    if k0 = k then (k0, v) :: rest else (k0, v0) :: assocSet rest k v

/-- Delete a key of a JS-object-as-dictionary (also models setting the value to
null, since every reader of activeCodelists tests the entry for truthiness). -/
def assocRemove {β : Type} : List (String × β) → String → List (String × β)
  | [], _ => []
  | (k0, v0) :: rest, k =>
    if k0 = k then rest else (k0, v0) :: assocRemove rest k

/-- Apply a function to the value stored under a key, leaving other keys
unchanged. -/
def assocUpdate {β : Type} (m : List (String × β)) (k : String) (f : β → β) :
    List (String × β) :=
  m.map fun kv => if kv.1 = k then (kv.1, f kv.2) else kv

/-- What the value-list container of a card currently shows: the dimension's
base categories (rendered from metadata) or a codelist's entries (rendered by
renderCodelistValues). -/
inductive ValueListView
  | base
  | codelist (values : List CodelistEntry)
deriving DecidableEq

/-- The mutable per-dimension UI state the codelist dropdown handler touches:
the rendered value list, the card's dataset.elimination badge, the selection
mode, and the selected item codes. -/
structure DimUIState where
  valueList : ValueListView
  badgeElimination : Bool
  mode : Mode
  selectedCodes : List String
deriving DecidableEq

/-- The module-and-app state the codelist dropdown handler touches: the
activeCodelists map, AppState.activeCodelistIds, and the per-dimension UI
state. -/
structure GlobalState where
  activeCodelists : List (String × CodelistInfo)
  activeCodelistIds : List (String × String)
  dims : List (String × DimUIState)
deriving DecidableEq

/-- The unconditional tail of the dropdown change handler: switching codelist
resets the card to specific mode with nothing selected. -/
def resetSelection (d : DimUIState) : DimUIState :=
  { d with mode := Mode.specific, selectedCodes := [] }

/-- The body of the change listener installed by setupCodelistDropdowns, for the
dimension dimCode and the chosen dropdown value codelistId, with the outcome of
the awaited api.getCodeList call passed as fetchResult (none models a failed
fetch, for which safeApiCall reports the error message and returns null).
Returns the new state and whether an error was reported.  An empty codelistId is
the "choose freely" entry: the codelist is removed and the dimension's value
list and elimination badge revert to metadata; a successful fetch stores the
extracted codelist with the effective elimination flag
originalElimination || codelist.elimination and renders the codelist; a failed
fetch changes nothing; in every case the selection is then reset. -/
def handleCodelistChange (meta : TableMetadata) (st : GlobalState) (dimCode : String)
    (codelistId : String) (fetchResult : Option CodelistData) : GlobalState × Bool :=
  let origElim :=
    match meta.dimension.lookup dimCode with
    | some d => d.elimination
    | none => false
  let applied : GlobalState × Bool :=
    if codelistId = "" then
      ({ activeCodelists := assocRemove st.activeCodelists dimCode
         activeCodelistIds := assocRemove st.activeCodelistIds dimCode
         dims := assocUpdate st.dims dimCode fun d =>
           { d with valueList := ValueListView.base, badgeElimination := origElim } }, false)
    else
      match fetchResult with
      | none => (st, true)
      | some cd =>
        let info := extractCodelistCodes cd
        let effElim := origElim || cd.elimination
        ({ activeCodelists := assocSet st.activeCodelists dimCode
             ⟨codelistId, effElim, info.isAggregated, info.values, info.originalCodes⟩
           activeCodelistIds := assocSet st.activeCodelistIds dimCode codelistId
           dims := assocUpdate st.dims dimCode fun d =>
             { d with valueList := ValueListView.codelist info.values
                      badgeElimination := effElim } }, false)
  ({ applied.1 with dims := assocUpdate applied.1.dims dimCode resetSelection }, applied.2)

/-!
## Layout validation (src/js/table-rotation.js)
-/

/-- The JS default array sort order on strings: lexicographic comparison of the
character sequences by code point. -/
def charListLe : List Char → List Char → Bool
  | [], _ => true
  | _ :: _, [] => false
  | a :: as, b :: bs =>
    if a.toNat < b.toNat then true
    else if b.toNat < a.toNat then false
    else charListLe as bs

/-- The non-strict string order used by [...].sort() in applyRotation. -/
def jsStrLe (a b : String) : Prop := charListLe a.toList b.toList = true

instance jsStrLeDecidable : DecidableRel jsStrLe :=
  fun _ _ => instDecidableEqBool _ _

/-- [...].sort() on an array of dimension-code strings (a stable sort in the JS
default string order). -/
def sortStrings (l : List String) : List String :=
  List.insertionSort jsStrLe l

/-- applyRotation of src/js/table-rotation.js, reduced to its state effect: the
proposed rows/columns are validated against currentData.id by comparing the
sorted concatenation with the sorted dimension list (JSON.stringify equality of
the sorted arrays), then by requiring at least one dimension overall; a failed
validation shows the error and leaves AppState.tableLayout unchanged, a passed
one installs the new layout.  Returns the resulting layout and the error
message, if any. -/
def applyRotation (dataId : List String) (current : Layout)
    (newRows newCols : List String) : Layout × Option String :=
  if sortStrings (newRows ++ newCols) = sortStrings dataId then
    if newRows = [] ∧ newCols = [] then
      (current, some "Tabellen må ha minst én dimensjon")
    else
      (⟨newRows, newCols⟩, none)
  else
    (current, some "Alle dimensjoner må være enten i rader eller kolonner")

/-!
## Concrete instances used by witnesses and counterexamples
-/

/-- Metadata for the spec's cardinality example: Sex with 2 categories, Year
with 5, both mandatory, no codelists. -/
def cardinalityMeta : TableMetadata :=
  ⟨["Sex", "Year"],
   [("Sex", ⟨["0", "1"], [("0", 0), ("1", 1)], false⟩),
    ("Year", ⟨["2020", "2021", "2022", "2023", "2024"],
      [("2020", 0), ("2021", 1), ("2022", 2), ("2023", 3), ("2024", 4)], false⟩)]⟩

/-- The Sex card of the cardinality example: selection All (star mode). -/
def sexAllCard : Card := ⟨"Sex", false, Mode.star, []⟩

/-- The Year card of the cardinality example: selection TopN(2). -/
def yearTopCard : Card := ⟨"Year", false, Mode.top 2, []⟩

/-- A one-dimension table whose single dimension A is mandatory. -/
def mandatoryMeta : TableMetadata :=
  ⟨["A"], [("A", ⟨["a1", "a2"], [("a1", 0), ("a2", 1)], false⟩)]⟩

/-- A card for mandatory dimension A in top mode with the input value 0. -/
def mandatoryTopZeroCard : Card := ⟨"A", false, Mode.top 0, []⟩

/-- Metadata with the single optional dimension Region. -/
def regionMeta : TableMetadata :=
  ⟨["Region"], [("Region", ⟨["R1", "R2"], [("R1", 0), ("R2", 1)], true⟩)]⟩

/-- A Region card: eliminable, specific mode, nothing selected. -/
def regionEmptyCard : Card := ⟨"Region", true, Mode.specific, []⟩

/-- A filter-type codelist for dimension Alder: every entry's valueMap is the
self-mapped singleton. -/
def filterInfo : CodelistInfo :=
  ⟨"vs_Filter", false, false,
   [⟨"01", "One", ["01"]⟩, ⟨"02", "Two", ["02"]⟩, ⟨"03", "Three", ["03"]⟩],
   ["01", "02", "03"]⟩

/-- Metadata with the single mandatory dimension Alder. -/
def alderMeta : TableMetadata :=
  ⟨["Alder"], [("Alder", ⟨["01", "02", "03"], [("01", 0), ("02", 1), ("03", 2)], false⟩)]⟩

/-- An Alder card in specific mode with the codelist entries 01 and 03
selected. -/
def alderSpecificCard : Card :=
  ⟨"Alder", false, Mode.specific, [⟨"01", some ["01"]⟩, ⟨"03", some ["03"]⟩]⟩

/-- An Alder card in star mode. -/
def alderStarCard : Card := ⟨"Alder", false, Mode.star, []⟩

/-- Metadata of a time dimension Tid whose canonical order is 2023 before
2024. -/
def tidDimMeta : DimensionMeta :=
  ⟨["2023", "2024"], [("2023", 0), ("2024", 1)], false⟩

/-- Table metadata with the single time dimension Tid. -/
def tidMeta : TableMetadata := ⟨["Tid"], [("Tid", tidDimMeta)]⟩

/-- A filter codelist over Tid listing the years newest first, as a codelist
author may order them. -/
def tidYearsInfo : CodelistInfo :=
  ⟨"vs_Years", false, false,
   [⟨"2024", "2024", ["2024"]⟩, ⟨"2023", "2023", ["2023"]⟩],
   ["2024", "2023"]⟩

/-- A Tid card in star mode. -/
def tidStarCard : Card := ⟨"Tid", false, Mode.star, []⟩

/-- A Tid card in specific mode with the years selected newest first. -/
def tidSpecificCard : Card :=
  ⟨"Tid", false, Mode.specific, [⟨"2024", none⟩, ⟨"2023", none⟩]⟩

/-- An aggregating codelist over dimension A. -/
def aggInfo : CodelistInfo :=
  ⟨"agg_X", true, true, [⟨"G1", "Group 1", ["01", "02"]⟩], ["01", "02"]⟩

/-- Metadata for a mandatory three-category dimension A. -/
def metaA : TableMetadata :=
  ⟨["A"], [("A", ⟨["01", "02", "03"], [("01", 0), ("02", 1), ("03", 2)], false⟩)]⟩

/-- Dimension A's UI state while the codelist agg_X governs it. -/
def dimAWithCodelist : DimUIState :=
  ⟨ValueListView.codelist [⟨"G1", "Group 1", ["01", "02"]⟩], true, Mode.specific, []⟩

/-- A global state in which dimension A currently has codelist agg_X active. -/
def stateWithCodelist : GlobalState :=
  ⟨[("A", aggInfo)], [("A", "agg_X")], [("A", dimAWithCodelist)]⟩

/-!
## Helper lemmas
-/

theorem flatIndexAux_cons (p : Nat × Nat) (l : List (Nat × Nat)) :
    flatIndexAux (p :: l) =
      ((flatIndexAux l).1 + p.1 * (flatIndexAux l).2, (flatIndexAux l).2 * p.2) := by
  cases p
  rfl

theorem zip_cons_cons_nat (a b : Nat) (l1 l2 : List Nat) :
    (a :: l1).zip (b :: l2) = (a, b) :: l1.zip l2 := rfl

theorem flatIndexAux_snd_zip :
    ∀ (indices sizes : List Nat), indices.length = sizes.length →
      (flatIndexAux (indices.zip sizes)).2 = sizes.prod
  | [], [], _ => rfl
  | [], _ :: _, h => by simp at h
  | _ :: _, [], h => by simp at h
  | i :: is, s :: ss, h => by
    have h2 : is.length = ss.length := by simpa using h
    have ih := flatIndexAux_snd_zip is ss h2
    rw [zip_cons_cons_nat, flatIndexAux_cons, List.prod_cons, ih]
    exact Nat.mul_comm ss.prod s

theorem calculateFlatIndex_eq_sum :
    ∀ (indices sizes : List Nat), indices.length = sizes.length →
      calculateFlatIndex indices sizes =
        ∑ i ∈ Finset.range sizes.length, indices.getD i 0 * stride sizes i
  | [], [], _ => by simp [calculateFlatIndex, flatIndexAux]
  | [], _ :: _, h => by simp at h
  | _ :: _, [], h => by simp at h
  | i :: is, s :: ss, h => by
    have h2 : is.length = ss.length := by simpa using h
    have ih := calculateFlatIndex_eq_sum is ss h2
    have hsnd := flatIndexAux_snd_zip is ss h2
    rw [calculateFlatIndex, zip_cons_cons_nat, flatIndexAux_cons]
    rw [List.length_cons, Finset.sum_range_succ']
    simp only [List.getD_cons_succ, List.getD_cons_zero, stride, List.drop_succ_cons,
      List.drop_zero]
    rw [calculateFlatIndex] at ih
    simp only [stride] at ih
    rw [ih, hsnd]

/-!
## Claim theorems
-/

/-- C1: cube addressing uses right-to-left strides — the stride of the last
dimension is 1, each earlier stride is the next stride times the next size, and
the flat offset of an index vector is the sum of index times stride; in the
concrete 2×2 scenario with layout rows=[Sex], columns=[Year], the lookup at
Sex=1, Year=1 returns V[1*2+1] = V[3] = 40. -/
theorem cube_addressing_strides (indices sizes : List Nat)
    (h : indices.length = sizes.length) :
    (sizes ≠ [] → stride sizes (sizes.length - 1) = 1) ∧
    (∀ i, i + 1 < sizes.length → stride sizes i = stride sizes (i + 1) * sizes.getD (i + 1) 0) ∧
    calculateFlatIndex indices sizes =
      ∑ i ∈ Finset.range sizes.length, indices.getD i 0 * stride sizes i ∧
    calculateFlatIndex [1, 1] [2, 2] = 3 ∧
    getDataValue sexYearCube sexYearLayout ⟨["1"], [1]⟩ ⟨["1"], [1]⟩ = some 40 := by
  refine ⟨?_, ?_, calculateFlatIndex_eq_sum indices sizes h, by decide, by decide⟩
  · intro hne
    have hpos : 0 < sizes.length := List.length_pos.mpr hne
    have hlen : sizes.length - 1 + 1 = sizes.length := Nat.succ_pred_eq_of_pos hpos
    rw [stride, hlen, List.drop_length, List.prod_nil]
  · intro i hi
    rw [stride, stride, List.drop_eq_getElem_cons hi, List.prod_cons,
      List.getD_eq_getElem sizes 0 hi, Nat.mul_comm]

/-- C1 witness: the theorem applied to the concrete index vector [1,1] and
sizes [2,2]. -/
theorem cube_addressing_strides_witness :
    calculateFlatIndex [1, 1] [2, 2] = 3 ∧
    getDataValue sexYearCube sexYearLayout ⟨["1"], [1]⟩ ⟨["1"], [1]⟩ = some 40 :=
  ⟨(cube_addressing_strides [1, 1] [2, 2] (by decide)).2.2.2.1,
   (cube_addressing_strides [1, 1] [2, 2] (by decide)).2.2.2.2⟩

/-- C2: for sizes [2,3] the 6 index vectors (i,j) with i < 2, j < 3 map to
pairwise-distinct flat offsets covering exactly 0..5 — the image of the flat
index map is range 6 and has full cardinality 6 over the 6-element domain. -/
theorem flatIndex_bijective_2x3 :
    ((Finset.range 2 ×ˢ Finset.range 3).image fun p => calculateFlatIndex [p.1, p.2] [2, 3]) =
        Finset.range 6 ∧
    ((Finset.range 2 ×ˢ Finset.range 3).image fun p =>
        calculateFlatIndex [p.1, p.2] [2, 3]).card = 6 ∧
    (Finset.range 2 ×ˢ Finset.range 3).card = 6 := by
  decide

/-- C10: the value lookup is total over any layout — a dimension of the cube
that appears in neither the layout's rows nor its columns contributes index 0,
the full index vector always has one entry per dimension of the cube, and the
lookup is exactly the (option-valued, never throwing) read of the flat value
array at the computed offset. -/
theorem getDataValue_total (data : DataCube) (layout : Layout) (rowHeader colHeader : Combo)
    (dimCode : String) (h1 : dimCode ∉ layout.rows) (h2 : dimCode ∉ layout.columns) :
    resolveDimIndex layout rowHeader colHeader dimCode = 0 ∧
    getDataValue data layout rowHeader colHeader =
      data.value.get?
        (calculateFlatIndex (data.id.map (resolveDimIndex layout rowHeader colHeader))
          data.size) ∧
    (data.id.map (resolveDimIndex layout rowHeader colHeader)).length = data.id.length := by
  refine ⟨?_, rfl, by simp⟩
  have hr : layout.rows.findIdx? (· == dimCode) = none := by
    rw [List.findIdx?_eq_none_iff]
    intro x hx
    rw [beq_eq_false_iff_ne]
    rintro rfl
    exact h1 hx
  have hc : layout.columns.findIdx? (· == dimCode) = none := by
    rw [List.findIdx?_eq_none_iff]
    intro x hx
    rw [beq_eq_false_iff_ne]
    rintro rfl
    exact h2 hx
  rw [resolveDimIndex, hr, hc]

/-- C10 witness: the theorem applied to the concrete cube and layout of the
spec scenario and the absent dimension code Other. -/
theorem getDataValue_total_witness :
    resolveDimIndex sexYearLayout ⟨["1"], [1]⟩ ⟨["1"], [1]⟩ "Other" = 0 ∧
    getDataValue sexYearCube sexYearLayout ⟨["1"], [1]⟩ ⟨["1"], [1]⟩ =
      sexYearCube.value.get?
        (calculateFlatIndex
          (sexYearCube.id.map (resolveDimIndex sexYearLayout ⟨["1"], [1]⟩ ⟨["1"], [1]⟩))
          sexYearCube.size) ∧
    (sexYearCube.id.map (resolveDimIndex sexYearLayout ⟨["1"], [1]⟩ ⟨["1"], [1]⟩)).length =
      sexYearCube.id.length :=
  getDataValue_total sexYearCube sexYearLayout ⟨["1"], [1]⟩ ⟨["1"], [1]⟩ "Other"
    (by decide) (by decide)

/-- C3: for every dimension included in the cardinality estimate, the selected
count is the true maximum count in All (star) mode and min(n, true maximum
count) in TopN mode, where the true maximum is the active codelist's
originalCodes size when a codelist is active and the total base category count
otherwise; in the concrete example Sex(2, All) × Year(5, TopN(2)) the total
selected cell count is 2 * min(2, 5) = 4. -/
theorem cardinality_selected_counts :
    (∀ (meta : TableMetadata) (codelists : List (String × CodelistInfo)) (card : Card),
      card.mode = Mode.star →
        dimSelectedCount meta codelists card =
          getTrueDimensionValueCount meta codelists card.dimCode) ∧
    (∀ (meta : TableMetadata) (codelists : List (String × CodelistInfo)) (card : Card)
        (n : Nat),
      card.mode = Mode.top n →
        dimSelectedCount meta codelists card =
          min n (getTrueDimensionValueCount meta codelists card.dimCode)) ∧
    (∀ (meta : TableMetadata) (codelists : List (String × CodelistInfo))
        (dimCode : String) (info : CodelistInfo),
      codelists.lookup dimCode = some info →
        getTrueDimensionValueCount meta codelists dimCode = info.originalCodes.length) ∧
    (∀ (meta : TableMetadata) (codelists : List (String × CodelistInfo))
        (dimCode : String) (d : DimensionMeta),
      codelists.lookup dimCode = none → meta.dimension.lookup dimCode = some d →
        getTrueDimensionValueCount meta codelists dimCode = d.categoryLabelKeys.length) ∧
    updateSelectionCellCount cardinalityMeta [] [sexAllCard, yearTopCard] = 4 := by
  refine ⟨?_, ?_, ?_, ?_, by decide⟩
  · intro meta codelists card hmode
    simp [dimSelectedCount, hmode]
  · intro meta codelists card n hmode
    simp [dimSelectedCount, hmode]
  · intro meta codelists dimCode info hinfo
    simp [getTrueDimensionValueCount, hinfo]
  · intro meta codelists dimCode d hnone hsome
    simp [getTrueDimensionValueCount, hnone, hsome]

/-- C3 witness: the star and top halves of the theorem applied to the concrete
Sex and Year cards of the cardinality example. -/
theorem cardinality_selected_counts_witness :
    dimSelectedCount cardinalityMeta [] sexAllCard =
      getTrueDimensionValueCount cardinalityMeta [] "Sex" ∧
    dimSelectedCount cardinalityMeta [] yearTopCard =
      min 2 (getTrueDimensionValueCount cardinalityMeta [] "Year") :=
  ⟨cardinality_selected_counts.1 cardinalityMeta [] sexAllCard rfl,
   cardinality_selected_counts.2.1 cardinalityMeta [] yearTopCard 2 rfl⟩

/-- C4 counterexample: a mandatory dimension whose resolved value is top(0) —
reachable from a card in top mode with input value 0 — is accepted by
validateSelection, while the claim's characterization (top(n) requires n ≥ 1)
calls the query invalid. -/
theorem validateSelection_topzero_cex :
    validateSelection mandatoryMeta [mandatoryTopZeroCard]
      (getVariableSelection mandatoryMeta [] [mandatoryTopZeroCard]) = true ∧
    specValidSelection mandatoryMeta [mandatoryTopZeroCard]
      (getVariableSelection mandatoryMeta [] [mandatoryTopZeroCard]) = false := by
  decide

/-- C4 amended: validateSelection returns true iff every dimension whose
effective eliminable flag is false has a present resolved value that is not an
empty code array — the wildcard, any top(n) string (n ≥ 0), or a non-empty
array. -/
theorem validateSelection_iff (meta : TableMetadata) (cards : List Card)
    (selection : List (String × QueryValue)) :
    validateSelection meta cards selection = true ↔
      ∀ dimCode ∈ meta.id, cardElimination cards dimCode = false →
        ∃ v, selection.lookup dimCode = some v ∧
          ∀ cs, v = QueryValue.codes cs → cs ≠ [] := by
  rw [validateSelection, List.all_eq_true]
  constructor
  · intro hall dimCode hmem helim
    have hd := hall dimCode hmem
    rw [helim] at hd
    simp only [Bool.false_eq_true, if_false] at hd
    cases hlk : selection.lookup dimCode with
    | none => rw [hlk] at hd; cases hd
    | some v =>
      refine ⟨v, rfl, ?_⟩
      rintro cs rfl
      rw [hlk] at hd
      intro hcs
      subst hcs
      cases hd
  · intro h dimCode hmem
    cases helim : cardElimination cards dimCode with
    | true => simp
    | false =>
      obtain ⟨v, hlk, hcs⟩ := h dimCode hmem helim
      rw [hlk]
      simp only [Bool.false_eq_true, if_false]
      cases v with
      | codes cs =>
        have := hcs cs rfl
        simpa [List.isEmpty_iff]
      | star => rfl
      | top n => rfl

theorem lookup_append {β : Type} (l1 l2 : List (String × β)) (k : String) :
    (l1 ++ l2).lookup k = ((l1.lookup k).or (l2.lookup k)) := by
  induction l1 with
  | nil => simp [List.lookup]
  | cons p rest ih =>
    rcases p with ⟨k0, v0⟩
    simp only [List.cons_append, List.lookup]
    cases h : k == k0
    · simpa [h] using ih
    · simp [h, Option.or]

theorem lookup_foldl_selectionStep_none (meta : TableMetadata)
    (codelists : List (String × CodelistInfo)) (cards : List Card) (k : String) :
    ∀ acc : List (String × QueryValue), acc.lookup k = none →
      (∀ c ∈ cards, c.dimCode = k → resolveCardSelection meta codelists c = none) →
      (cards.foldl (selectionStep meta codelists) acc).lookup k = none := by
  induction cards with
  | nil => intro acc hacc _; simpa using hacc
  | cons c rest ih =>
    intro acc hacc h
    rw [List.foldl_cons]
    refine ih _ ?_ fun c2 hmem hk => h c2 (List.mem_cons_of_mem _ hmem) hk
    rw [selectionStep]
    cases hres : resolveCardSelection meta codelists c
    · exact hacc
    · have hne : (k == c.dimCode) = false := by
        rw [beq_eq_false_iff_ne]
        intro hk
        rw [h c (List.mem_cons_self c rest) hk.symm] at hres
        cases hres
      rw [lookup_append, hacc]
      simp [List.lookup, hne]

/-- C5: a dimension whose effective eliminable flag is true and whose selection
resolves to an empty explicit set is omitted from the query map entirely — not
present with an empty array nor with any placeholder value. -/
theorem eliminable_empty_selection_omitted (meta : TableMetadata)
    (codelists : List (String × CodelistInfo)) (cards : List Card) (card : Card)
    (hmem : card ∈ cards) (hnodup : (cards.map Card.dimCode).Nodup)
    (hmode : card.mode = Mode.specific) (helim : card.elimination = true)
    (hempty : resolvedValues meta codelists card = []) :
    (getVariableSelection meta codelists cards).lookup card.dimCode = none := by
  rw [getVariableSelection]
  refine lookup_foldl_selectionStep_none meta codelists cards card.dimCode [] rfl ?_
  intro c hc hk
  have hceq : c = card := List.inj_on_of_nodup_map hnodup hc hmem hk
  subst hceq
  simp [resolveCardSelection, hmode, hempty, helim]

/-- C5 witness: the theorem applied to the eliminable Region dimension with an
empty explicit selection — the query object has no Region key. -/
theorem eliminable_empty_selection_omitted_witness :
    (getVariableSelection regionMeta [] [regionEmptyCard]).lookup "Region" = none :=
  eliminable_empty_selection_omitted regionMeta [] [regionEmptyCard] regionEmptyCard
    (by decide) (by decide) rfl rfl (by decide)

theorem mem_insertSet (l : List String) (x y : String) :
    y ∈ insertSet l x ↔ y ∈ l ∨ y = x := by
  by_cases h : x ∈ l
  · rw [insertSet, if_pos h]
    constructor
    · exact Or.inl
    · rintro (hy | rfl)
      · exact hy
      · exact h
  · rw [insertSet, if_neg h]
    simp

theorem nodup_insertSet (l : List String) (x : String) (h : l.Nodup) :
    (insertSet l x).Nodup := by
  by_cases hx : x ∈ l
  · rw [insertSet, if_pos hx]
    exact h
  · rw [insertSet, if_neg hx]
    refine List.Nodup.append h (List.nodup_singleton x) ?_
    intro y hy hy1
    rw [List.mem_singleton] at hy1
    subst hy1
    exact hx hy

theorem mem_foldl_insertSet (vm : List String) (acc : List String) (y : String) :
    y ∈ vm.foldl insertSet acc ↔ y ∈ acc ∨ y ∈ vm := by
  induction vm generalizing acc with
  | nil => simp
  | cons c rest ih =>
    rw [List.foldl_cons, ih, mem_insertSet, List.mem_cons]
    tauto

theorem nodup_foldl_insertSet (vm : List String) (acc : List String) (h : acc.Nodup) :
    (vm.foldl insertSet acc).Nodup := by
  induction vm generalizing acc with
  | nil => simpa
  | cons c rest ih => exact ih _ (nodup_insertSet _ _ h)

theorem mem_expandFold (items : List ValueItem) (acc : List String) (y : String) :
    y ∈ items.foldl expandStep acc ↔
      y ∈ acc ∨ ∃ item ∈ items, ∃ vm, item.valueMap = some vm ∧ y ∈ vm := by
  induction items generalizing acc with
  | nil => simp
  | cons it rest ih =>
    rw [List.foldl_cons]
    cases hvm : it.valueMap with
    | none =>
      simp only [expandStep, hvm]
      rw [ih]
      constructor
      · rintro (h | ⟨item, hm, vm, hv, hy⟩)
        · exact Or.inl h
        · exact Or.inr ⟨item, List.mem_cons_of_mem _ hm, vm, hv, hy⟩
      · rintro (h | ⟨item, hm, vm, hv, hy⟩)
        · exact Or.inl h
        · rcases List.mem_cons.mp hm with rfl | hm2
          · rw [hvm] at hv
            cases hv
          · exact Or.inr ⟨item, hm2, vm, hv, hy⟩
    | some vml =>
      simp only [expandStep, hvm]
      rw [ih, mem_foldl_insertSet]
      constructor
      · rintro ((h | hy) | ⟨item, hm, vm, hv, hy⟩)
        · exact Or.inl h
        · exact Or.inr ⟨it, List.mem_cons_self it rest, vml, hvm, hy⟩
        · exact Or.inr ⟨item, List.mem_cons_of_mem _ hm, vm, hv, hy⟩
      · rintro (h | ⟨item, hm, vm, hv, hy⟩)
        · exact Or.inl (Or.inl h)
        · rcases List.mem_cons.mp hm with rfl | hm2
          · rw [hvm] at hv
            injection hv with hv2
            subst hv2
            exact Or.inl (Or.inr hy)
          · exact Or.inr ⟨item, hm2, vm, hv, hy⟩

theorem nodup_expandFold (items : List ValueItem) (acc : List String) (h : acc.Nodup) :
    (items.foldl expandStep acc).Nodup := by
  induction items generalizing acc with
  | nil => simpa
  | cons it rest ih =>
    rw [List.foldl_cons]
    cases hvm : it.valueMap with
    | none =>
      simp only [expandStep, hvm]
      exact ih _ h
    | some vml =>
      simp only [expandStep, hvm]
      exact ih _ (nodup_foldl_insertSet _ _ h)

theorem expandFold_filter :
    ∀ (items : List ValueItem) (acc : List String),
      (∀ item ∈ items, item.valueMap = some [item.code]) →
      (acc ++ items.map ValueItem.code).Nodup →
      items.foldl expandStep acc = acc ++ items.map ValueItem.code
  | [], acc, _, _ => by simp
  | it :: rest, acc, hvm, hnd => by
    have hvmit := hvm it (List.mem_cons_self it rest)
    have hnd2 : (acc ++ (it.code :: rest.map ValueItem.code)).Nodup := by
      simpa using hnd
    have hnotin : it.code ∉ acc := fun hin =>
      (List.disjoint_of_nodup_append hnd2) hin (List.mem_cons_self _ _)
    rw [List.foldl_cons]
    have hstep : expandStep acc it = acc ++ [it.code] := by
      rw [expandStep, hvmit]
      simp only [List.foldl_cons, List.foldl_nil]
      rw [insertSet, if_neg hnotin]
    rw [hstep]
    have hnd3 : ((acc ++ [it.code]) ++ rest.map ValueItem.code).Nodup := by
      rw [List.append_assoc, List.singleton_append]
      exact hnd2
    rw [expandFold_filter rest (acc ++ [it.code])
      (fun i hi => hvm i (List.mem_cons_of_mem _ hi)) hnd3]
    rw [List.append_assoc, List.singleton_append, List.map_cons]

/-- C6: with an active codelist, query construction always emits explicit base
category codes — in All (star) mode exactly the codelist's originalCodes array
(never the wildcard), and in Explicit (specific) mode the de-duplicated union of
the selected entries' valueMaps; for a filter-type codelist (every valueMap the
self-mapped singleton) the explicit selection expands to exactly the selected
codes. -/
theorem codelist_query_construction (meta : TableMetadata)
    (codelists : List (String × CodelistInfo)) (card : Card) (info : CodelistInfo)
    (hinfo : codelists.lookup card.dimCode = some info) :
    (card.mode = Mode.star →
      resolveCardSelection meta codelists card =
        some (QueryValue.codes info.originalCodes)) ∧
    (card.mode = Mode.specific → isTimeDim card.dimCode = false →
      resolvedValues meta codelists card = expandViaValueMaps card.selectedItems ∧
      (resolvedValues meta codelists card).Nodup ∧
      (∀ y, y ∈ resolvedValues meta codelists card ↔
        ∃ item ∈ card.selectedItems, ∃ vm, item.valueMap = some vm ∧ y ∈ vm)) ∧
    (card.mode = Mode.specific → isTimeDim card.dimCode = false →
      (∀ item ∈ card.selectedItems, item.valueMap = some [item.code]) →
      (card.selectedItems.map ValueItem.code).Nodup →
      resolvedValues meta codelists card = card.selectedItems.map ValueItem.code) := by
  have hval : isTimeDim card.dimCode = false →
      resolvedValues meta codelists card = expandViaValueMaps card.selectedItems := by
    intro htime
    rw [resolvedValues, hinfo, htime]
    simp
  refine ⟨?_, ?_, ?_⟩
  · intro hmode
    rw [resolveCardSelection, hmode, hinfo]
  · intro _ htime
    rw [hval htime, expandViaValueMaps]
    refine ⟨rfl, nodup_expandFold _ _ List.nodup_nil, ?_⟩
    intro y
    rw [mem_expandFold]
    simp
  · intro _ htime hfilter hnd
    rw [hval htime, expandViaValueMaps]
    have := expandFold_filter card.selectedItems [] hfilter (by simpa using hnd)
    simpa using this

/-- C6 witness: the star and filter-expansion halves of the theorem applied to
the concrete filter codelist on dimension Alder. -/
theorem codelist_query_construction_witness :
    resolveCardSelection alderMeta [("Alder", filterInfo)] alderStarCard =
      some (QueryValue.codes ["01", "02", "03"]) ∧
    resolvedValues alderMeta [("Alder", filterInfo)] alderSpecificCard = ["01", "03"] :=
  ⟨(codelist_query_construction alderMeta [("Alder", filterInfo)] alderStarCard filterInfo
      (by decide)).1 rfl,
   (codelist_query_construction alderMeta [("Alder", filterInfo)] alderSpecificCard filterInfo
      (by decide)).2.2 rfl (by decide) (by decide) (by decide)⟩

/-- C7 counterexample: for the time dimension Tid with an active codelist whose
originalCodes are listed newest first, star (All) mode emits the explicit code
array in codelist order, not sorted ascending by canonical category index — the
chronological re-sort only happens in the specific-mode branch of
getVariableSelection. -/
theorem time_sort_star_codelist_cex :
    isTimeDim tidStarCard.dimCode = true ∧
    resolveCardSelection tidMeta [("Tid", tidYearsInfo)] tidStarCard =
      some (QueryValue.codes ["2024", "2023"]) ∧
    ¬ List.Pairwise (timeLe tidDimMeta) ["2024", "2023"] := by
  decide

/-- C7 amended: in Explicit (specific) mode, the code array produced by query
construction for a time-like dimension whose category.index map is available is
sorted ascending by canonical category index before emission; in All mode with
an active codelist the array is emitted in the codelist's own order, without the
chronological re-sort. -/
theorem time_explicit_sorted (meta : TableMetadata)
    (codelists : List (String × CodelistInfo)) (card : Card) (d : DimensionMeta)
    (hmode : card.mode = Mode.specific) (htime : isTimeDim card.dimCode = true)
    (hdim : meta.dimension.lookup card.dimCode = some d) :
    List.Pairwise (timeLe d) (resolvedValues meta codelists card) ∧
    (resolveCardSelection meta codelists card = none ∨
      resolveCardSelection meta codelists card =
        some (QueryValue.codes (resolvedValues meta codelists card))) := by
  constructor
  · rw [resolvedValues, htime, hdim]
    exact List.sorted_insertionSort (timeLe d) _
  · simp only [resolveCardSelection, hmode]
    split
    · exact Or.inl rfl
    · exact Or.inr rfl

/-- C7 witness: the theorem applied to a specific-mode Tid card whose years were
selected newest first — the resolved array comes out chronological. -/
theorem time_explicit_sorted_witness :
    List.Pairwise (timeLe tidDimMeta) (resolvedValues tidMeta [] tidSpecificCard) ∧
    (resolveCardSelection tidMeta [] tidSpecificCard = none ∨
      resolveCardSelection tidMeta [] tidSpecificCard =
        some (QueryValue.codes (resolvedValues tidMeta [] tidSpecificCard))) :=
  time_explicit_sorted tidMeta [] tidSpecificCard tidDimMeta rfl (by decide) (by decide)

theorem assocUpdate_cons {β : Type} (k0 : String) (v0 : β) (rest : List (String × β))
    (k : String) (f : β → β) :
    assocUpdate ((k0, v0) :: rest) k f =
      (if k0 = k then (k0, f v0) else (k0, v0)) :: assocUpdate rest k f := rfl

theorem assocUpdate_lookup_eq {β : Type} (m : List (String × β)) (k : String) (f : β → β) :
    (assocUpdate m k f).lookup k = (m.lookup k).map f := by
  induction m with
  | nil => rfl
  | cons p rest ih =>
    rcases p with ⟨k0, v0⟩
    rw [assocUpdate_cons]
    by_cases h : k0 = k
    · rw [if_pos h]
      subst h
      simp [List.lookup]
    · rw [if_neg h]
      have hbeq : (k == k0) = false := by
        rw [beq_eq_false_iff_ne]
        exact fun h2 => h h2.symm
      simp only [List.lookup, hbeq]
      exact ih

theorem assocUpdate_lookup_ne {β : Type} (m : List (String × β)) (k k2 : String) (f : β → β)
    (h : k2 ≠ k) : (assocUpdate m k f).lookup k2 = m.lookup k2 := by
  induction m with
  | nil => rfl
  | cons p rest ih =>
    rcases p with ⟨k0, v0⟩
    rw [assocUpdate_cons]
    by_cases h0 : k0 = k
    · rw [if_pos h0]
      have hbeq : (k2 == k0) = false := by
        rw [beq_eq_false_iff_ne]
        intro he
        exact h (he.trans h0)
      simp only [List.lookup, hbeq]
      exact ih
    · rw [if_neg h0]
      cases hbeq : k2 == k0
      · simp only [List.lookup, hbeq]
        exact ih
      · simp only [List.lookup, hbeq]

/-- C8 counterexample: when a codelist (agg_X, eliminable) is already active for
dimension A and loading a different codelist agg_Y fails, the dimension does not
fall back to its base category list and original eliminable flag — it keeps the
previous codelist's rendered value list and badge. -/
theorem codelist_failure_keeps_previous_cex :
    ((handleCodelistChange metaA stateWithCodelist "A" "agg_Y" none).1.dims.lookup "A").map
        DimUIState.valueList ≠ some ValueListView.base ∧
    ((handleCodelistChange metaA stateWithCodelist "A" "agg_Y" none).1.dims.lookup "A").map
        DimUIState.badgeElimination ≠ some false ∧
    (handleCodelistChange metaA stateWithCodelist "A" "agg_Y" none).1.activeCodelists =
      [("A", aggInfo)] := by
  decide

/-- C8 amended: a failed codelist fetch (fetchResult none, non-empty codelist
id) reports the error, does not apply the failed codelist, leaves the
activeCodelists map, the stored codelist ids, and every other dimension's state
untouched, and only resets the affected dimension's selection to the empty
explicit selection — so a dimension that had no codelist active keeps its base
category list and original eliminable flag. -/
theorem codelist_failure_recovery (meta : TableMetadata) (st : GlobalState)
    (dimCode codelistId : String) (hid : codelistId ≠ "") :
    (handleCodelistChange meta st dimCode codelistId none).2 = true ∧
    (handleCodelistChange meta st dimCode codelistId none).1.activeCodelists =
      st.activeCodelists ∧
    (handleCodelistChange meta st dimCode codelistId none).1.activeCodelistIds =
      st.activeCodelistIds ∧
    (handleCodelistChange meta st dimCode codelistId none).1.dims =
      assocUpdate st.dims dimCode resetSelection ∧
    (∀ k, k ≠ dimCode →
      (handleCodelistChange meta st dimCode codelistId none).1.dims.lookup k =
        st.dims.lookup k) ∧
    (∀ d, st.dims.lookup dimCode = some d →
      (handleCodelistChange meta st dimCode codelistId none).1.dims.lookup dimCode =
        some { d with mode := Mode.specific, selectedCodes := [] }) := by
  have hmain : handleCodelistChange meta st dimCode codelistId none =
      ({ st with dims := assocUpdate st.dims dimCode resetSelection }, true) := by
    rw [handleCodelistChange, if_neg hid]
  rw [hmain]
  refine ⟨rfl, rfl, rfl, rfl, ?_, ?_⟩
  · intro k hk
    exact assocUpdate_lookup_ne st.dims dimCode k resetSelection hk
  · intro d hd
    rw [assocUpdate_lookup_eq, hd]
    rfl

/-- C8 witness: the theorem applied to the concrete state in which dimension A
has codelist agg_X active and loading agg_Y fails. -/
theorem codelist_failure_recovery_witness :
    (handleCodelistChange metaA stateWithCodelist "A" "agg_Y" none).2 = true ∧
    (handleCodelistChange metaA stateWithCodelist "A" "agg_Y" none).1.activeCodelists =
      stateWithCodelist.activeCodelists ∧
    (handleCodelistChange metaA stateWithCodelist "A" "agg_Y" none).1.activeCodelistIds =
      stateWithCodelist.activeCodelistIds ∧
    (handleCodelistChange metaA stateWithCodelist "A" "agg_Y" none).1.dims =
      assocUpdate stateWithCodelist.dims "A" resetSelection ∧
    (∀ k, k ≠ "A" →
      (handleCodelistChange metaA stateWithCodelist "A" "agg_Y" none).1.dims.lookup k =
        stateWithCodelist.dims.lookup k) ∧
    (∀ d, stateWithCodelist.dims.lookup "A" = some d →
      (handleCodelistChange metaA stateWithCodelist "A" "agg_Y" none).1.dims.lookup "A" =
        some { d with mode := Mode.specific, selectedCodes := [] }) :=
  codelist_failure_recovery metaA stateWithCodelist "A" "agg_Y" (by decide)

theorem charListLe_total : ∀ a b : List Char, charListLe a b = true ∨ charListLe b a = true
  | [], _ => Or.inl rfl
  | _ :: _, [] => Or.inr rfl
  | a :: as, b :: bs => by
    rcases Nat.lt_trichotomy a.toNat b.toNat with h | h | h
    · left
      rw [charListLe, if_pos h]
    · rcases charListLe_total as bs with ih | ih
      · left
        rw [charListLe, if_neg (by omega), if_neg (by omega)]
        exact ih
      · right
        rw [charListLe, if_neg (by omega), if_neg (by omega)]
        exact ih
    · right
      rw [charListLe, if_pos h]

theorem charListLe_trans : ∀ a b c : List Char,
    charListLe a b = true → charListLe b c = true → charListLe a c = true
  | [], _, _, _, _ => rfl
  | _ :: _, [], _, h1, _ => by
    rw [charListLe] at h1
    exact absurd h1 Bool.false_ne_true
  | _ :: _, _ :: _, [], _, h2 => by
    rw [charListLe] at h2
    exact absurd h2 Bool.false_ne_true
  | a :: as, b :: bs, c :: cs, h1, h2 => by
    rw [charListLe] at h1 h2 ⊢
    rcases Nat.lt_trichotomy a.toNat c.toNat with h | h | h
    · rw [if_pos h]
    · rw [if_neg (by omega), if_neg (by omega)]
      by_cases hab : a.toNat < b.toNat
      · rw [if_neg (by omega), if_pos (by omega)] at h2
        exact absurd h2 Bool.false_ne_true
      · by_cases hba : b.toNat < a.toNat
        · rw [if_neg hab, if_pos hba] at h1
          exact absurd h1 Bool.false_ne_true
        · rw [if_neg hab, if_neg hba] at h1
          rw [if_neg (by omega), if_neg (by omega)] at h2
          exact charListLe_trans as bs cs h1 h2
    · exfalso
      by_cases hab : a.toNat < b.toNat
      · rw [if_neg (by omega), if_pos (by omega)] at h2
        exact absurd h2 Bool.false_ne_true
      · by_cases hba : b.toNat < a.toNat
        · rw [if_neg hab, if_pos hba] at h1
          exact absurd h1 Bool.false_ne_true
        · rw [if_neg (by omega), if_pos (by omega)] at h2
          exact absurd h2 Bool.false_ne_true

theorem charListLe_antisymm : ∀ a b : List Char,
    charListLe a b = true → charListLe b a = true → a = b
  | [], [], _, _ => rfl
  | [], _ :: _, _, h2 => by
    rw [charListLe] at h2
    exact absurd h2 Bool.false_ne_true
  | _ :: _, [], h1, _ => by
    rw [charListLe] at h1
    exact absurd h1 Bool.false_ne_true
  | a :: as, b :: bs, h1, h2 => by
    rw [charListLe] at h1 h2
    by_cases hab : a.toNat < b.toNat
    · rw [if_neg (by omega), if_pos (by omega)] at h2
      exact absurd h2 Bool.false_ne_true
    · by_cases hba : b.toNat < a.toNat
      · rw [if_neg hab, if_pos hba] at h1
        exact absurd h1 Bool.false_ne_true
      · rw [if_neg hab, if_neg hba] at h1
        rw [if_neg hba, if_neg hab] at h2
        have htn : a.toNat = b.toNat := by omega
        have hchar : a = b := Char.eq_of_val_eq (UInt32.ext htn)
        rw [hchar, charListLe_antisymm as bs h1 h2]

theorem jsStrLe_total (a b : String) : jsStrLe a b ∨ jsStrLe b a :=
  charListLe_total a.toList b.toList

theorem jsStrLe_trans (a b c : String) : jsStrLe a b → jsStrLe b c → jsStrLe a c :=
  charListLe_trans a.toList b.toList c.toList

theorem jsStrLe_antisymm (a b : String) : jsStrLe a b → jsStrLe b a → a = b :=
  fun h1 h2 => String.ext (charListLe_antisymm a.toList b.toList h1 h2)

theorem sortStrings_eq_iff_perm (l1 l2 : List String) :
    sortStrings l1 = sortStrings l2 ↔ l1.Perm l2 := by
  haveI : IsTotal String jsStrLe := ⟨jsStrLe_total⟩
  haveI : IsTrans String jsStrLe := ⟨jsStrLe_trans⟩
  haveI : IsAntisymm String jsStrLe := ⟨jsStrLe_antisymm⟩
  constructor
  · intro h
    have p1 := (List.perm_insertionSort jsStrLe l1).symm
    have p2 := List.perm_insertionSort jsStrLe l2
    rw [sortStrings, sortStrings] at h
    rw [← h] at p2
    exact p1.trans p2
  · intro h
    exact List.eq_of_perm_of_sorted
      (((List.perm_insertionSort jsStrLe l1).trans h).trans
        (List.perm_insertionSort jsStrLe l2).symm)
      (List.sorted_insertionSort jsStrLe l1)
      (List.sorted_insertionSort jsStrLe l2)

/-- C9 counterexample: for a cube with no dimensions, the empty proposal
rows=[], columns=[] exactly partitions the dimension set (the multisets agree),
yet applyRotation rejects it with the at-least-one-dimension error and keeps the
current layout. -/
theorem applyRotation_empty_partition_cex :
    List.Perm (([] : List String) ++ []) ([] : List String) ∧
    (applyRotation [] ⟨["X"], []⟩ [] []).2 = some "Tabellen må ha minst én dimensjon" ∧
    (applyRotation [] ⟨["X"], []⟩ [] []).1 = ⟨["X"], []⟩ := by
  refine ⟨List.Perm.refl _, rfl, rfl⟩

/-- C9 amended: a proposed layout whose rows++columns multiset differs from the
cube's dimension list is rejected with a descriptive error and the current
layout is kept; a proposal that exactly partitions the dimension set is accepted
and installed, provided at least one of the two lists is non-empty (the empty
partition of a zero-dimension cube is additionally rejected). -/
theorem applyRotation_correct (dataId : List String) (current : Layout)
    (newRows newCols : List String) :
    (¬ (newRows ++ newCols).Perm dataId →
      applyRotation dataId current newRows newCols =
        (current, some "Alle dimensjoner må være enten i rader eller kolonner")) ∧
    ((newRows ++ newCols).Perm dataId → ¬ (newRows = [] ∧ newCols = []) →
      applyRotation dataId current newRows newCols = (⟨newRows, newCols⟩, none)) ∧
    ((newRows ++ newCols).Perm dataId → newRows = [] → newCols = [] →
      applyRotation dataId current newRows newCols =
        (current, some "Tabellen må ha minst én dimensjon")) := by
  refine ⟨?_, ?_, ?_⟩
  · intro h
    rw [applyRotation, if_neg]
    intro hs
    exact h ((sortStrings_eq_iff_perm _ _).mp hs)
  · intro hperm hne
    rw [applyRotation, if_pos ((sortStrings_eq_iff_perm _ _).mpr hperm), if_neg hne]
  · intro hperm h1 h2
    rw [applyRotation, if_pos ((sortStrings_eq_iff_perm _ _).mpr hperm), if_pos ⟨h1, h2⟩]

/-- C9 witness: the theorem applied to a concrete transpose proposal that
exactly partitions a two-dimension cube. -/
theorem applyRotation_correct_witness :
    applyRotation ["A", "B"] ⟨["A", "B"], []⟩ ["B"] ["A"] = (⟨["B"], ["A"]⟩, none) :=
  (applyRotation_correct ["A", "B"] ⟨["A", "B"], []⟩ ["B"] ["A"]).2.1 (by decide)
    (by decide)

end Statistikkportalen
